import Mathlib

/- Verification of src/main.go: a flat-file JSON record store (the Driver).

   Shallow embedding conventions:
   * a filesystem path is a list of segments (names are single clean
     segments, as in all of the repository's own calls);
   * the filesystem is a finite association list of regular files plus a
     list of existing directories; the `denied` field injects OS-level
     permission failures for ReadDir/ReadFile, which the Go code never
     causes itself but can encounter;
   * the external JSON collaborator (encoding/json) is an abstract
     Serializer with MarshalIndent and Unmarshal;
   * every Driver operation also returns the list of filesystem
     operations it performed, in order, so that claims about what was
     touched (and in which order) can be stated. -/

namespace GoDB

abbrev Path := List String

/-- Go string concatenation `path + sfx` on a segment path: the suffix
attaches to the last segment (`"a/b" + ".json" = "a/b.json"`). -/
def addSfx (sfx : String) : Path → Path
  | [] => [sfx]
  | [x] => [x ++ sfx]
  | x :: y :: xs => x :: addSfx sfx (y :: xs)

/-- filepath.Join on name segments: empty components are dropped. -/
def joinNames : List String → Path
  | [] => []
  | s :: rest => if s = "" then joinNames rest else s :: joinNames rest

/-- filepath.Join of a root path with name segments. -/
def joinP (root : Path) (parts : List String) : Path := root ++ joinNames parts

/-- result of os.Stat: in this model an entry is a regular file or a
directory. -/
structure FileInfo where
  isDir : Bool
deriving DecidableEq, Repr

/-- the error values the embedded operations can produce.  `invalidArg`
carries the fmt.Errorf message of the name-validation errors;
`deleteNotFound` is Delete's own fmt.Errorf. -/
inductive Err where
  | invalidArg (msg : String)
  | notExist (p : Path)
  | eisdir (p : Path)
  | notDir (p : Path)
  | permission (p : Path)
  | marshalFail
  | decodeFail
  | deleteNotFound (p : Path)
deriving DecidableEq, Repr

instance decEqExcept {α β : Type} [DecidableEq α] [DecidableEq β] :
    DecidableEq (Except α β) := fun x y =>
  match x, y with
  | .ok a, .ok b =>
    if h : a = b then .isTrue (h ▸ rfl) else .isFalse fun hh => h (Except.ok.inj hh)
  | .error a, .error b =>
    if h : a = b then .isTrue (h ▸ rfl) else .isFalse fun hh => h (Except.error.inj hh)
  | .ok _, .error _ => .isFalse fun hh => Except.noConfusion hh
  | .error _, .ok _ => .isFalse fun hh => Except.noConfusion hh

/-- the filesystem: regular files with contents, directories, and a set
of paths on which the OS denies ReadDir/ReadFile (permission faults). -/
structure FS where
  files : List (Path × String)
  dirs : List Path
  denied : List Path
deriving DecidableEq, Repr

def FS.isFile (fs : FS) (p : Path) : Bool := (fs.files.lookup p).isSome

def FS.isDirp (fs : FS) (p : Path) : Bool := fs.dirs.contains p

/-- os.Stat: a regular file or a directory, otherwise a not-exist error. -/
def FS.osStat (fs : FS) (p : Path) : Except Err FileInfo :=
  if fs.isFile p then .ok ⟨false⟩
  else if fs.isDirp p then .ok ⟨true⟩
  else .error (.notExist p)

/-- the stat helper of main.go: on a not-exist error, retry with ".json"
appended (the only error osStat produces is not-exist, matching the
os.IsNotExist guard in the source). -/
def stat (fs : FS) (p : Path) : Except Err FileInfo :=
  match fs.osStat p with
  | .ok fi => .ok fi
  | .error _ => fs.osStat (addSfx ".json" p)

/-- all initial segments of a path, the directories os.MkdirAll creates. -/
def prefixes (p : Path) : List Path :=
  (List.range (p.length + 1)).map fun n => p.take n

/-- os.MkdirAll: create the directory and all parents; fails if a regular
file occupies any prefix of the path. -/
def FS.mkdirAll (fs : FS) (p : Path) : Except Err FS :=
  if (prefixes p).any fs.isFile then .error (.notDir p)
  else .ok { fs with
             dirs := (prefixes p).foldl
               (fun ds q => if ds.contains q then ds else q :: ds) fs.dirs }

/-- os.WriteFile: create or truncate a regular file; fails on a directory. -/
def FS.writeFile (fs : FS) (p : Path) (b : String) : Except Err FS :=
  if fs.isDirp p then .error (.eisdir p)
  else .ok { fs with files := (p, b) :: fs.files.filter fun e => decide (e.1 ≠ p) }

/-- os.Rename: move a regular file onto the destination, replacing an
existing file but failing on a directory. -/
def FS.rename (fs : FS) (src dst : Path) : Except Err FS :=
  match fs.files.lookup src with
  | none => .error (.notExist src)
  | some b =>
    if fs.isDirp dst then .error (.eisdir dst)
    else .ok { fs with
               files := (dst, b) ::
                 fs.files.filter fun e => decide (e.1 ≠ src ∧ e.1 ≠ dst) }

/-- os.ReadFile: the contents of a regular file; a directory or a
permission-denied path is an error. -/
def FS.readFile (fs : FS) (p : Path) : Except Err String :=
  if fs.denied.contains p then .error (.permission p)
  else
    match fs.files.lookup p with
    | some b => .ok b
    | none => if fs.isDirp p then .error (.eisdir p) else .error (.notExist p)

/-- os.RemoveAll: delete the path and everything below it; succeeds also
when nothing exists there. -/
def FS.removeAll (fs : FS) (p : Path) : FS :=
  { files := fs.files.filter fun e => decide (¬ p <+: e.1)
    dirs := fs.dirs.filter fun q => decide (¬ p <+: q)
    denied := fs.denied }

/-- the entry names directly inside a directory. -/
def FS.childNames (fs : FS) (p : Path) : List String :=
  ((fs.files.map Prod.fst ++ fs.dirs).filterMap fun q =>
    if q.length = p.length + 1 ∧ p <+: q then q.getLast? else none).dedup

/-- os.ReadDir: list the entries of a directory. -/
def FS.readDir (fs : FS) (p : Path) : Except Err (List String) :=
  if fs.denied.contains p then .error (.permission p)
  else if fs.isDirp p then .ok (fs.childNames p)
  else if fs.isFile p then .error (.notDir p)
  else .error (.notExist p)

/-- a filesystem access performed by a Driver operation. -/
inductive FsOp where
  | statOp (p : Path)
  | mkdirOp (p : Path)
  | writeOp (p : Path) (b : String)
  | renameOp (src dst : Path)
  | removeOp (p : Path)
  | readFileOp (p : Path)
  | readDirOp (p : Path)
deriving DecidableEq, Repr

/-- does a filesystem operation mutate the entry at path p?  A write or
rename mutates the paths it touches, a recursive remove mutates
everything below its argument, a mkdirAll creates every prefix of its
argument. -/
def FsOp.mutates : FsOp → Path → Bool
  | .writeOp q _, p => decide (q = p)
  | .renameOp src dst, p => decide (src = p ∨ dst = p)
  | .removeOp q, p => decide (q <+: p)
  | .mkdirOp q, p => decide (p <+: q)
  | _, _ => false

/-- the external JSON collaborator: MarshalIndent (pretty printing,
which can fail) and Unmarshal (which can fail to decode). -/
structure Serializer (V : Type) where
  marshalIndent : V → Option String
  unmarshal : String → Option V

/-- the Driver of main.go: root directory and the per-collection lock
registry.  Locks are identified by numeric ids allocated from
nextMutex. -/
structure Driver where
  dir : Path
  mutexes : List (String × Nat)
  nextMutex : Nat
deriving DecidableEq, Repr

/-- getOrCreateMutex of main.go: look up the collection lock, creating
it when absent. -/
def Driver.getOrCreateMutex (d : Driver) (collection : String) : Nat × Driver :=
  match d.mutexes.lookup collection with
  | some m => (m, d)
  | none =>
    (d.nextMutex,
     { d with
       mutexes := (collection, d.nextMutex) :: d.mutexes
       nextMutex := d.nextMutex + 1 })

/-- result of a mutating Driver operation: Go error (none = nil), the
filesystem afterwards, the driver afterwards, and the performed
filesystem accesses in order. -/
structure MRes where
  err : Option Err
  fs : FS
  drv : Driver
  trace : List FsOp
deriving DecidableEq, Repr

/-- result of Driver.Read: Go error, the out-target afterwards, and the
performed filesystem accesses. -/
structure RRes (V : Type) where
  err : Option Err
  val : V
  trace : List FsOp
deriving DecidableEq, Repr

/-- result of Driver.ReadAll. -/
structure LRes where
  err : Option Err
  records : List String
  trace : List FsOp
deriving DecidableEq, Repr

/-- Driver.Write of main.go: validate names, take the collection lock,
mkdir the collection, marshal with indentation, append a newline, write
the temp sibling file, rename it onto the final path. -/
def Driver.write {V : Type} (d : Driver) (fs : FS) (S : Serializer V)
    (collection resource : String) (v : V) : MRes :=
  if collection = "" then
    ⟨some (.invalidArg "Missing collection - no place to save record!"), fs, d, []⟩
  else if resource = "" then
    ⟨some (.invalidArg "Missing resource - unable to save record (no name)!"), fs, d, []⟩
  else
    let d1 := (d.getOrCreateMutex collection).2
    let dir := joinP d.dir [collection]
    let fnlPath := joinP dir [resource ++ ".json"]
    let tmpPath := addSfx ".tmp" fnlPath
    match fs.mkdirAll dir with
    | .error e => ⟨some e, fs, d1, [.mkdirOp dir]⟩
    | .ok fs1 =>
      match S.marshalIndent v with
      | none => ⟨some .marshalFail, fs1, d1, [.mkdirOp dir]⟩
      | some b0 =>
        let b := b0 ++ "\n"
        match fs1.writeFile tmpPath b with
        | .error e => ⟨some e, fs1, d1, [.mkdirOp dir, .writeOp tmpPath b]⟩
        | .ok fs2 =>
          match fs2.rename tmpPath fnlPath with
          | .error e =>
              ⟨some e, fs2, d1,
               [.mkdirOp dir, .writeOp tmpPath b, .renameOp tmpPath fnlPath]⟩
          | .ok fs3 =>
              ⟨none, fs3, d1,
               [.mkdirOp dir, .writeOp tmpPath b, .renameOp tmpPath fnlPath]⟩

/-- Driver.Read of main.go: validate names, stat the bare record path
(retrying with ".json"), then read `record + ".json"` and unmarshal into
the out-target.  No lock is taken. -/
def Driver.read {V : Type} (d : Driver) (fs : FS) (S : Serializer V)
    (collection resource : String) (v : V) : RRes V :=
  if collection = "" then
    ⟨some (.invalidArg "Missing collection - unable to read record!"), v, []⟩
  else if resource = "" then
    ⟨some (.invalidArg "Missing resource - unable to read record (no name)!"), v, []⟩
  else
    let record := joinP d.dir [collection, resource]
    match stat fs record with
    | .error e => ⟨some e, v, [.statOp record]⟩
    | .ok _ =>
      match fs.readFile (addSfx ".json" record) with
      | .error e => ⟨some e, v, [.statOp record, .readFileOp (addSfx ".json" record)]⟩
      | .ok b =>
        match S.unmarshal b with
        | some w => ⟨none, w, [.statOp record, .readFileOp (addSfx ".json" record)]⟩
        | none => ⟨some .decodeFail, v, [.statOp record, .readFileOp (addSfx ".json" record)]⟩

/-- the per-file loop of ReadAll: read each listed entry in order,
aborting on the first failure. -/
def readRecords (fs : FS) (dir : Path) :
    List String → Except Err (List String) × List FsOp
  | [] => (.ok [], [])
  | n :: ns =>
    match fs.readFile (dir ++ [n]) with
    | .error e => (.error e, [.readFileOp (dir ++ [n])])
    | .ok b =>
      match readRecords fs dir ns with
      | (.ok rs, t) => (.ok (b :: rs), .readFileOp (dir ++ [n]) :: t)
      | (.error e, t) => (.error e, .readFileOp (dir ++ [n]) :: t)

/-- Driver.ReadAll of main.go.  NOTE the source discards the ReadDir
error (`files, _ := os.ReadDir(dir)`): on a listing failure the loop
runs over no entries. -/
def Driver.readAll (d : Driver) (fs : FS) (collection : String) : LRes :=
  if collection = "" then
    ⟨some (.invalidArg "Missing collection - unable to read"), [], []⟩
  else
    let dir := joinP d.dir [collection]
    match stat fs dir with
    | .error e => ⟨some e, [], [.statOp dir]⟩
    | .ok _ =>
      let files := match fs.readDir dir with
        | .ok l => l
        | .error _ => []
      match readRecords fs dir files with
      | (.ok rs, t) => ⟨none, rs, .statOp dir :: .readDirOp dir :: t⟩
      | (.error e, t) => ⟨some e, [], .statOp dir :: .readDirOp dir :: t⟩

/-- Driver.Delete of main.go.  NOTE no name validation is performed; the
lock is taken before resolution; a resolved directory is removed
recursively, a resolved regular file leads to RemoveAll of
`dir + ".json"`. -/
def Driver.delete (d : Driver) (fs : FS) (collection resource : String) : MRes :=
  let path := joinNames [collection, resource]
  let d1 := (d.getOrCreateMutex collection).2
  let dir := d.dir ++ path
  match stat fs dir with
  | .error _ => ⟨some (.deleteNotFound path), fs, d1, [.statOp dir]⟩
  | .ok fi =>
    if fi.isDir then
      ⟨none, fs.removeAll dir, d1, [.statOp dir, .removeOp dir]⟩
    else
      ⟨none, fs.removeAll (addSfx ".json" dir), d1,
       [.statOp dir, .removeOp (addSfx ".json" dir)]⟩

/-- the New constructor of main.go: reuse an existing root directory, or
create it. -/
def New (dir : Path) (fs : FS) : Driver × Option Err × FS :=
  let d : Driver := ⟨dir, [], 0⟩
  match fs.osStat dir with
  | .ok _ => (d, none, fs)
  | .error _ =>
    match fs.mkdirAll dir with
    | .ok fs1 => (d, none, fs1)
    | .error e => (d, some e, fs)

/-- is the Go error an invalid-argument (empty name) error? -/
def errIsInvalidArg : Option Err → Bool
  | some (.invalidArg _) => true
  | _ => false

/- ------------------------------------------------------------------
   Helper lemmas: path algebra
   ------------------------------------------------------------------ -/

theorem addSfx_append_last (sfx : String) (xs : Path) (x : String) :
    addSfx sfx (xs ++ [x]) = xs ++ [x ++ sfx] := by
  induction xs with
  | nil => rfl
  | cons a t ih =>
    cases t with
    | nil => rfl
    | cons b t' => exact congrArg (List.cons a) ih

theorem addSfx_snoc2 (sfx : String) (xs : Path) (a b : String) :
    addSfx sfx (xs ++ [a, b]) = xs ++ [a, b ++ sfx] := by
  have h := addSfx_append_last sfx (xs ++ [a]) b
  simpa using h

theorem joinNames_one {c : String} (hc : c ≠ "") : joinNames [c] = [c] := by
  simp [joinNames, hc]

theorem joinNames_two {a b : String} (ha : a ≠ "") (hb : b ≠ "") :
    joinNames [a, b] = [a, b] := by
  simp [joinNames, ha, hb]

theorem joinP_one {root : Path} {c : String} (hc : c ≠ "") :
    joinP root [c] = root ++ [c] := by
  simp [joinP, joinNames_one hc]

theorem joinP_two {root : Path} {a b : String} (ha : a ≠ "") (hb : b ≠ "") :
    joinP root [a, b] = root ++ [a, b] := by
  simp [joinP, joinNames_two ha hb]

theorem str_append_ne_empty (r s : String) (hs : s.length ≠ 0) : r ++ s ≠ "" := by
  intro h
  have hlen := congrArg String.length h
  simp [String.length_append] at hlen
  omega

theorem json_sfx_ne (r : String) : r ++ ".json" ≠ "" :=
  str_append_ne_empty r ".json" (by decide)

/-- a path with a nonempty suffix attached to its last segment is never a
prefix of the original path. -/
theorem addSfx_prefix_false (sfx : String) (hs : sfx.length ≠ 0) (p : Path) :
    ¬ addSfx sfx p <+: p := by
  intro h
  cases hp : p.reverse with
  | nil =>
    have : p = [] := by simpa using congrArg List.reverse hp
    subst this
    simp [addSfx] at h
  | cons x t =>
    have : p = t.reverse ++ [x] := by
      have := congrArg List.reverse hp
      simpa using this
    subst this
    rw [addSfx_append_last] at h
    have heq := h.eq_of_length (by simp)
    have hx : x ++ sfx = x := by
      have := List.append_inj_right heq (by simp)
      simpa using this
    have := congrArg String.length hx
    simp [String.length_append] at this
    omega

/- ------------------------------------------------------------------
   Helper lemmas: filesystem operations
   ------------------------------------------------------------------ -/

theorem mkdirAll_ok {fs fs' : FS} {p : Path} (h : fs.mkdirAll p = .ok fs') :
    fs'.files = fs.files ∧ fs'.denied = fs.denied := by
  unfold FS.mkdirAll at h
  split at h
  · cases h
  · cases h
    exact ⟨rfl, rfl⟩

theorem writeFile_ok {fs fs' : FS} {p : Path} {b : String}
    (h : fs.writeFile p b = .ok fs') :
    fs'.files.lookup p = some b ∧ fs'.dirs = fs.dirs ∧ fs'.denied = fs.denied := by
  unfold FS.writeFile at h
  split at h
  · cases h
  · cases h
    refine ⟨?_, rfl, rfl⟩
    simp [List.lookup]

theorem rename_ok {fs fs' : FS} {src dst : Path}
    (h : fs.rename src dst = .ok fs') :
    ∃ b, fs.files.lookup src = some b ∧ fs'.files.lookup dst = some b ∧
      fs'.dirs = fs.dirs ∧ fs'.denied = fs.denied := by
  unfold FS.rename at h
  cases hl : fs.files.lookup src with
  | none => rw [hl] at h; cases h
  | some b =>
    simp only [hl] at h
    by_cases hd : fs.isDirp dst = true
    · rw [if_pos hd] at h; cases h
    · rw [if_neg hd] at h
      cases h
      refine ⟨b, rfl, ?_, rfl, rfl⟩
      simp [List.lookup]

theorem stat_ok_of_json_file {fs : FS} {p : Path}
    (h : fs.isFile (addSfx ".json" p) = true) : ∃ fi, stat fs p = .ok fi := by
  unfold stat
  cases hos : fs.osStat p with
  | ok fi => exact ⟨fi, rfl⟩
  | error e =>
    refine ⟨⟨false⟩, ?_⟩
    unfold FS.osStat
    simp [h]

theorem lookup_filter_under (l : List (Path × String)) (p q : Path)
    (h : p <+: q) :
    (l.filter fun e => decide (¬ p <+: e.1)).lookup q = none := by
  induction l with
  | nil => rfl
  | cons e t ih =>
    obtain ⟨k, v⟩ := e
    rw [List.filter_cons]
    by_cases hk : p <+: k
    · have hdec : (decide (¬ p <+: (k, v).1)) = false := by simp [hk]
      rw [hdec]
      simpa using ih
    · have hdec : (decide (¬ p <+: (k, v).1)) = true := by simp [hk]
      rw [hdec]
      have hne : (q == k) = false := by
        refine beq_eq_false_iff_ne.mpr ?_
        intro hEq
        exact hk (hEq ▸ h)
      simp only [if_true]
      rw [List.lookup, hne]
      exact ih

theorem lookup_filter_outside (l : List (Path × String)) (p q : Path)
    (h : ¬ p <+: q) :
    (l.filter fun e => decide (¬ p <+: e.1)).lookup q = l.lookup q := by
  induction l with
  | nil => rfl
  | cons e t ih =>
    obtain ⟨k, v⟩ := e
    rw [List.filter_cons]
    by_cases hk : p <+: k
    · have hdec : (decide (¬ p <+: (k, v).1)) = false := by simp [hk]
      rw [hdec]
      have hne : (q == k) = false := by
        refine beq_eq_false_iff_ne.mpr ?_
        intro hEq
        exact h (hEq ▸ hk)
      simp only [Bool.false_eq_true, if_false]
      rw [ih, List.lookup, hne]
    · have hdec : (decide (¬ p <+: (k, v).1)) = true := by simp [hk]
      rw [hdec]
      simp only [if_true]
      rw [List.lookup, List.lookup]
      cases hqk : (q == k) with
      | true => rfl
      | false => exact ih

theorem contains_filter_under (l : List Path) (p q : Path) (h : p <+: q) :
    (l.filter fun x => decide (¬ p <+: x)).contains q = false := by
  rw [List.contains_eq_any_beq]
  simp only [List.any_eq_false]
  intro x hx
  rw [List.mem_filter] at hx
  intro hbeq
  have hq : q = x := by simpa using hbeq
  subst hq
  simp [h] at hx

theorem removeAll_isFile_false {fs : FS} {p q : Path} (h : p <+: q) :
    (fs.removeAll p).isFile q = false := by
  simp only [FS.removeAll, FS.isFile]
  rw [lookup_filter_under _ _ _ h]
  rfl

theorem removeAll_isDirp_false {fs : FS} {p q : Path} (h : p <+: q) :
    (fs.removeAll p).isDirp q = false := by
  simp only [FS.removeAll, FS.isDirp]
  exact contains_filter_under _ _ _ h

theorem removeAll_lookup_outside {fs : FS} {p q : Path} (h : ¬ p <+: q) :
    (fs.removeAll p).files.lookup q = fs.files.lookup q :=
  lookup_filter_outside _ _ _ h

theorem lookup_mem_keys {α β : Type} [BEq α] [LawfulBEq α]
    {l : List (α × β)} {a : α} {b : β} (h : l.lookup a = some b) :
    a ∈ l.map Prod.fst := by
  induction l with
  | nil => cases h
  | cons e t ih =>
    obtain ⟨k, v⟩ := e
    by_cases hk : a = k
    · subst hk; simp
    · have hne : (a == k) = false := beq_eq_false_iff_ne.mpr hk
      simp [List.lookup, hne] at h
      simp [ih h]

theorem getOrCreateMutex_dir (d : Driver) (c : String) :
    (d.getOrCreateMutex c).2.dir = d.dir := by
  unfold Driver.getOrCreateMutex
  cases d.mutexes.lookup c <;> rfl

/-- characterization of a successful Write: names validated, the
collection directory created, the value marshalled, the temp file
written with the marshalled text plus a newline, and the temp file
renamed onto the final path. -/
theorem write_ok {V : Type} {d : Driver} {fs : FS} {S : Serializer V}
    {c r : String} {v : V}
    (hc : c ≠ "") (hr : r ≠ "") (hw : (d.write fs S c r v).err = none) :
    ∃ b0 fs1 fs2 fs3,
      S.marshalIndent v = some b0 ∧
      fs.mkdirAll (d.dir ++ [c]) = .ok fs1 ∧
      fs1.writeFile (d.dir ++ [c, r ++ ".json" ++ ".tmp"]) (b0 ++ "\n") = .ok fs2 ∧
      fs2.rename (d.dir ++ [c, r ++ ".json" ++ ".tmp"])
        (d.dir ++ [c, r ++ ".json"]) = .ok fs3 ∧
      d.write fs S c r v =
        ⟨none, fs3, (d.getOrCreateMutex c).2,
         [.mkdirOp (d.dir ++ [c]),
          .writeOp (d.dir ++ [c, r ++ ".json" ++ ".tmp"]) (b0 ++ "\n"),
          .renameOp (d.dir ++ [c, r ++ ".json" ++ ".tmp"])
            (d.dir ++ [c, r ++ ".json"])]⟩ ∧
      fs3.files.lookup (d.dir ++ [c, r ++ ".json"]) = some (b0 ++ "\n") := by
  have hdir : joinP d.dir [c] = d.dir ++ [c] := joinP_one hc
  have hfnl : joinP (d.dir ++ [c]) [r ++ ".json"] = d.dir ++ [c, r ++ ".json"] := by
    rw [joinP_one (json_sfx_ne r)]
    simp
  have htmp : addSfx ".tmp" (d.dir ++ [c, r ++ ".json"]) =
      d.dir ++ [c, r ++ ".json" ++ ".tmp"] := addSfx_snoc2 ".tmp" d.dir c (r ++ ".json")
  have hw' := hw
  unfold Driver.write at hw'
  rw [if_neg hc, if_neg hr] at hw'
  simp only [hdir, hfnl, htmp] at hw'
  split at hw'
  next e heq => simp at hw'
  next fs1 heq1 =>
    split at hw'
    next heq => simp at hw'
    next b0 heq2 =>
      split at hw'
      next e heq => simp at hw'
      next fs2 heq3 =>
        split at hw'
        next e heq => simp at hw'
        next fs3 heq4 =>
          obtain ⟨bb, hsrc, hdst, -, -⟩ := rename_ok heq4
          obtain ⟨hlk, -, -⟩ := writeFile_ok heq3
          have hbb : bb = b0 ++ "\n" := by
            rw [hlk] at hsrc
            exact (Option.some_inj.mp hsrc).symm
          subst hbb
          refine ⟨b0, fs1, fs2, fs3, heq2, heq1, heq3, heq4, ?_, hdst⟩
          unfold Driver.write
          rw [if_neg hc, if_neg hr]
          simp only [hdir, hfnl, htmp, heq1, heq2, heq3, heq4]

/-- C1: for non-empty collection and resource names and a serializable
value (the external serializer round-trips the marshalled text with the
trailing newline Write appends), a successful Write followed by Read of
the same pair succeeds and the out-target receives the written value. -/
theorem write_read_roundtrip {V : Type} (d : Driver) (fs : FS) (S : Serializer V)
    (c r : String) (v out : V) (b0 : String)
    (hc : c ≠ "") (hr : r ≠ "")
    (hm : S.marshalIndent v = some b0)
    (hrt : S.unmarshal (b0 ++ "\n") = some v)
    (hden : fs.denied = [])
    (hw : (d.write fs S c r v).err = none) :
    ((d.write fs S c r v).drv.read (d.write fs S c r v).fs S c r out).err = none ∧
    ((d.write fs S c r v).drv.read (d.write fs S c r v).fs S c r out).val = v := by
  obtain ⟨b0', fs1, fs2, fs3, hm', hmk, hwf, hrn, hEq, hdst⟩ := write_ok hc hr hw
  have hb : b0 = b0' := by
    rw [hm] at hm'
    exact Option.some_inj.mp hm'
  subst hb
  rw [hEq]
  show ((d.getOrCreateMutex c).2.read fs3 S c r out).err = none ∧
       ((d.getOrCreateMutex c).2.read fs3 S c r out).val = v
  have hden3 : fs3.denied = [] := by
    obtain ⟨-, -, h3⟩ := writeFile_ok hwf
    obtain ⟨-, h4⟩ := mkdirAll_ok hmk
    obtain ⟨-, -, -, -, h5⟩ := rename_ok hrn
    rw [h5, h3, h4, hden]
  have hjs : addSfx ".json" (d.dir ++ [c, r]) = d.dir ++ [c, r ++ ".json"] :=
    addSfx_snoc2 ".json" d.dir c r
  have hfile : fs3.isFile (addSfx ".json" (d.dir ++ [c, r])) = true := by
    rw [hjs]
    simp [FS.isFile, hdst]
  obtain ⟨fi, hstat⟩ := stat_ok_of_json_file hfile
  unfold Driver.read
  rw [if_neg hc, if_neg hr]
  simp only [getOrCreateMutex_dir, joinP_two hc hr, hstat, hjs]
  have hread : fs3.readFile (d.dir ++ [c, r ++ ".json"]) = .ok (b0 ++ "\n") := by
    unfold FS.readFile
    rw [hden3]
    simp [hdst]
  simp only [hread, hrt]
  constructor <;> trivial

/-- C3: a successful Write produces exactly the trace: mkdir of the
collection directory, write of the pretty-printed value plus exactly one
trailing newline to the temp sibling file resource.json.tmp, then rename
of the temp file onto the final path resource.json; the final path holds
those bytes afterwards, and the rename is the only trace operation that
mutates the final path. -/
theorem write_atomic_trace {V : Type} (d : Driver) (fs : FS) (S : Serializer V)
    (c r : String) (v : V) (b0 : String)
    (hc : c ≠ "") (hr : r ≠ "")
    (hm : S.marshalIndent v = some b0)
    (hw : (d.write fs S c r v).err = none) :
    (d.write fs S c r v).trace =
      [.mkdirOp (d.dir ++ [c]),
       .writeOp (d.dir ++ [c, r ++ ".json" ++ ".tmp"]) (b0 ++ "\n"),
       .renameOp (d.dir ++ [c, r ++ ".json" ++ ".tmp"]) (d.dir ++ [c, r ++ ".json"])] ∧
    (d.write fs S c r v).fs.files.lookup (d.dir ++ [c, r ++ ".json"]) =
      some (b0 ++ "\n") ∧
    (∀ op ∈ (d.write fs S c r v).trace,
      op.mutates (d.dir ++ [c, r ++ ".json"]) = true →
      op = .renameOp (d.dir ++ [c, r ++ ".json" ++ ".tmp"])
             (d.dir ++ [c, r ++ ".json"])) := by
  obtain ⟨b0', fs1, fs2, fs3, hm', hmk, hwf, hrn, hEq, hdst⟩ := write_ok hc hr hw
  have hb : b0 = b0' := by
    rw [hm] at hm'
    exact Option.some_inj.mp hm'
  subst hb
  rw [hEq]
  refine ⟨rfl, hdst, ?_⟩
  intro op hop hmut
  simp only [List.mem_cons, List.not_mem_nil, or_false] at hop
  rcases hop with rfl | rfl | rfl
  · exfalso
    simp only [FsOp.mutates, decide_eq_true_eq] at hmut
    have hlen := hmut.length_le
    simp at hlen
  · exfalso
    simp only [FsOp.mutates, decide_eq_true_eq] at hmut
    have : r ++ ".json" ++ ".tmp" = r ++ ".json" := by
      have h2 : ([c, r ++ ".json" ++ ".tmp"] : Path) = [c, r ++ ".json"] :=
        List.append_cancel_left hmut
      simpa using h2
    have hlen := congrArg String.length this
    simp [String.length_append] at hlen
    exact absurd hlen (by decide)
  · rfl

/- ------------------------------------------------------------------
   Concrete fixtures for witnesses and counterexamples
   ------------------------------------------------------------------ -/

/-- a fresh driver over root directory "db". -/
def drv0 : Driver := ⟨["db"], [], 0⟩

/-- a fresh filesystem holding only the root directory. -/
def fs0 : FS := ⟨[], [[], ["db"]], []⟩

/-- a concrete serializer on Unit whose unmarshal accepts exactly the
text Write produces for it (pretty-printed "null" plus a newline). -/
def unitSer : Serializer Unit :=
  ⟨fun _ => some "null", fun s => if s = "null\n" then some () else none⟩

/-- a concrete serializer on strings: marshal is the identity. -/
def strSer : Serializer String := ⟨fun s => some s, fun s => some s⟩

/-- a filesystem holding a bare regular file db/c/r, with no db/c/r.json. -/
def fsBare : FS := ⟨[(["db", "c", "r"], "hello")], [[], ["db"], ["db", "c"]], []⟩

/-- witness for C1: at the concrete store the hypotheses hold and Write
then Read round-trips. -/
theorem write_read_roundtrip_witness :
    ((drv0.write fs0 unitSer "c" "r" ()).drv.read
        (drv0.write fs0 unitSer "c" "r" ()).fs unitSer "c" "r" ()).err = none ∧
    ((drv0.write fs0 unitSer "c" "r" ()).drv.read
        (drv0.write fs0 unitSer "c" "r" ()).fs unitSer "c" "r" ()).val = () :=
  write_read_roundtrip drv0 fs0 unitSer "c" "r" () () "null"
    (by decide) (by decide) rfl (by decide) rfl (by decide)

/-- witness for C3: the concrete Write performs exactly mkdir, temp
write, rename, and the final file holds the marshalled text plus one
newline. -/
theorem write_atomic_trace_witness :
    (drv0.write fs0 unitSer "c" "r" ()).trace =
      [.mkdirOp (drv0.dir ++ ["c"]),
       .writeOp (drv0.dir ++ ["c", "r" ++ ".json" ++ ".tmp"]) ("null" ++ "\n"),
       .renameOp (drv0.dir ++ ["c", "r" ++ ".json" ++ ".tmp"])
         (drv0.dir ++ ["c", "r" ++ ".json"])] ∧
    (drv0.write fs0 unitSer "c" "r" ()).fs.files.lookup
      (drv0.dir ++ ["c", "r" ++ ".json"]) = some ("null" ++ "\n") :=
  ⟨(write_atomic_trace drv0 fs0 unitSer "c" "r" () "null"
      (by decide) (by decide) rfl (by decide)).1,
   (write_atomic_trace drv0 fs0 unitSer "c" "r" () "null"
      (by decide) (by decide) rfl (by decide)).2.1⟩

/-- C2 (amended): Write and Read reject an empty collection or resource
name with an invalid-argument error before any filesystem access (empty
trace, filesystem unchanged), and ReadAll rejects an empty collection
name likewise; Delete performs no such validation (see the
counterexample theorem). -/
theorem name_validation_amended {V : Type} (d : Driver) (fs : FS) (S : Serializer V)
    (c r : String) (v out : V) (h : c = "" ∨ r = "") :
    (errIsInvalidArg (d.write fs S c r v).err = true ∧
     (d.write fs S c r v).trace = [] ∧ (d.write fs S c r v).fs = fs) ∧
    (errIsInvalidArg (d.read fs S c r out).err = true ∧
     (d.read fs S c r out).trace = [] ∧ (d.read fs S c r out).val = out) ∧
    (c = "" →
      errIsInvalidArg (d.readAll fs c).err = true ∧ (d.readAll fs c).trace = []) := by
  by_cases hc : c = ""
  · subst hc
    refine ⟨?_, ?_, ?_⟩ <;>
      simp [Driver.write, Driver.read, Driver.readAll, errIsInvalidArg]
  · have hr : r = "" := h.resolve_left hc
    subst hr
    refine ⟨?_, ?_, ?_⟩
    · simp [Driver.write, hc, errIsInvalidArg]
    · simp [Driver.read, hc, errIsInvalidArg]
    · intro hcc
      exact absurd hcc hc

/-- witness for C2 (amended) at the concrete store with an empty
collection name. -/
theorem name_validation_witness :
    errIsInvalidArg (drv0.write fs0 unitSer "" "x" ()).err = true ∧
    (drv0.write fs0 unitSer "" "x" ()).trace = [] ∧
    errIsInvalidArg (drv0.readAll fs0 "").err = true :=
  ⟨(name_validation_amended drv0 fs0 unitSer "" "x" () () (Or.inl rfl)).1.1,
   (name_validation_amended drv0 fs0 unitSer "" "x" () () (Or.inl rfl)).1.2.1,
   ((name_validation_amended drv0 fs0 unitSer "" "x" () () (Or.inl rfl)).2.2 rfl).1⟩

/-- C2 counterexample: Delete performs no name validation: with an empty
collection name it proceeds to stat the filesystem (non-empty trace) and
returns a not-found error, not an invalid-argument error. -/
theorem delete_skips_validation_cex :
    (drv0.delete fs0 "" "x").trace = [.statOp ["db", "x"]] ∧
    errIsInvalidArg (drv0.delete fs0 "" "x").err = false ∧
    (drv0.delete fs0 "" "x").err = some (.deleteNotFound ["x"]) := by decide

theorem stat_ok_of_exists {fs : FS} {p : Path}
    (h : fs.isFile p = true ∨ fs.isDirp p = true) : ∃ fi, stat fs p = .ok fi := by
  cases hf : fs.isFile p with
  | true => exact ⟨⟨false⟩, by simp [stat, FS.osStat, hf]⟩
  | false =>
    have hd : fs.isDirp p = true := by
      rcases h with h | h
      · rw [hf] at h; cases h
      · exact h
    exact ⟨⟨true⟩, by simp [stat, FS.osStat, hf, hd]⟩

/-- C4 (amended): with non-empty names, Read fails with the not-exist
error of the ".json" form when neither the bare path nor the ".json"
path exists; when the ".json" file exists, its contents are what is read
and deserialized, a deserialization failure surfacing as a decode error;
but when only the bare form exists Read does NOT read the resolved bare
file: it still attempts root/collection/resource.json and fails with its
not-exist error, leaving the out-target unchanged. -/
theorem read_resolution_amended {V : Type} (d : Driver) (fs : FS) (S : Serializer V)
    (c r : String) (out : V) (hc : c ≠ "") (hr : r ≠ "") :
    ((fs.isFile (d.dir ++ [c, r]) = false ∧ fs.isDirp (d.dir ++ [c, r]) = false ∧
      fs.isFile (d.dir ++ [c, r ++ ".json"]) = false ∧
      fs.isDirp (d.dir ++ [c, r ++ ".json"]) = false) →
      (d.read fs S c r out).err = some (.notExist (d.dir ++ [c, r ++ ".json"]))) ∧
    (∀ b, fs.files.lookup (d.dir ++ [c, r ++ ".json"]) = some b →
      (d.dir ++ [c, r ++ ".json"]) ∉ fs.denied →
      ((∀ w, S.unmarshal b = some w →
        (d.read fs S c r out).err = none ∧ (d.read fs S c r out).val = w) ∧
       (S.unmarshal b = none → (d.read fs S c r out).err = some .decodeFail))) ∧
    ((fs.isFile (d.dir ++ [c, r]) = true ∨ fs.isDirp (d.dir ++ [c, r]) = true) →
      fs.files.lookup (d.dir ++ [c, r ++ ".json"]) = none →
      fs.isDirp (d.dir ++ [c, r ++ ".json"]) = false →
      (d.dir ++ [c, r ++ ".json"]) ∉ fs.denied →
      (d.read fs S c r out).err = some (.notExist (d.dir ++ [c, r ++ ".json"])) ∧
      (d.read fs S c r out).val = out) := by
  have hjs : addSfx ".json" (d.dir ++ [c, r]) = d.dir ++ [c, r ++ ".json"] :=
    addSfx_snoc2 ".json" d.dir c r
  refine ⟨?_, ?_, ?_⟩
  · rintro ⟨h1, h2, h3, h4⟩
    have hstat : stat fs (d.dir ++ [c, r]) =
        .error (.notExist (d.dir ++ [c, r ++ ".json"])) := by
      simp [stat, FS.osStat, h1, h2, h3, h4, hjs]
    unfold Driver.read
    rw [if_neg hc, if_neg hr]
    simp [joinP_two hc hr, hstat]
  · intro b hb hdn
    have hfile : fs.isFile (addSfx ".json" (d.dir ++ [c, r])) = true := by
      rw [hjs]
      simp [FS.isFile, hb]
    obtain ⟨fi, hstat⟩ := stat_ok_of_json_file hfile
    have hread : fs.readFile (d.dir ++ [c, r ++ ".json"]) = .ok b := by
      simp [FS.readFile, hdn, hb]
    constructor
    · intro w hws
      unfold Driver.read
      rw [if_neg hc, if_neg hr]
      simp [joinP_two hc hr, hstat, hjs, hread, hws]
    · intro hwn
      unfold Driver.read
      rw [if_neg hc, if_neg hr]
      simp [joinP_two hc hr, hstat, hjs, hread, hwn]
  · intro hex hnl hnd hdn
    obtain ⟨fi, hstat⟩ := stat_ok_of_exists hex
    have hread : fs.readFile (d.dir ++ [c, r ++ ".json"]) =
        .error (.notExist (d.dir ++ [c, r ++ ".json"])) := by
      simp [FS.readFile, hdn, hnl, hnd]
    unfold Driver.read
    rw [if_neg hc, if_neg hr]
    simp [joinP_two hc hr, hstat, hjs, hread]

/-- a filesystem holding a record file db/c/r.json. -/
def fsJson : FS := ⟨[(["db", "c", "r.json"], "five")], [[], ["db"], ["db", "c"]], []⟩

/-- witness for C4 (amended): reading an existing ".json" record at the
concrete store succeeds and deserializes its contents. -/
theorem read_resolution_witness :
    (drv0.read fsJson strSer "c" "r" "init").err = none ∧
    (drv0.read fsJson strSer "c" "r" "init").val = "five" :=
  ((read_resolution_amended drv0 fsJson strSer "c" "r" "init"
      (by decide) (by decide)).2.1 "five" (by decide) (by decide)).1 "five" rfl

/-- C4 counterexample: db/c/r exists as a bare regular file, so one of
the two forms exists, yet Read does not read it: it fails with the
not-exist error of db/c/r.json instead of returning the file contents. -/
theorem read_bare_file_cex :
    fsBare.isFile ["db", "c", "r"] = true ∧
    (drv0.read fsBare strSer "c" "r" "init").err =
      some (.notExist ["db", "c", "r.json"]) ∧
    (drv0.read fsBare strSer "c" "r" "init").val = "init" := by decide

/-- C5 (amended): Delete resolves its target by the same
bare-then-".json" stat rule as Read and fails with its not-found error
when neither form exists (filesystem untouched); a resolved directory is
removed recursively with all contents; but for a resolved regular file
Delete runs RemoveAll on `target + ".json"`: when the ".json" form
resolved this removes that record file, while a resolved bare regular
file is left in place and Delete still reports success. -/
theorem delete_resolution_amended (d : Driver) (fs : FS) (c r : String) :
    (∀ e, stat fs (d.dir ++ joinNames [c, r]) = .error e →
      (d.delete fs c r).err = some (.deleteNotFound (joinNames [c, r])) ∧
      (d.delete fs c r).fs = fs ∧
      (d.delete fs c r).trace = [.statOp (d.dir ++ joinNames [c, r])]) ∧
    (stat fs (d.dir ++ joinNames [c, r]) = .ok ⟨true⟩ →
      (d.delete fs c r).err = none ∧
      (∀ q, (d.dir ++ joinNames [c, r]) <+: q →
        (d.delete fs c r).fs.isFile q = false ∧
        (d.delete fs c r).fs.isDirp q = false)) ∧
    (stat fs (d.dir ++ joinNames [c, r]) = .ok ⟨false⟩ →
      (d.delete fs c r).err = none ∧
      (d.delete fs c r).fs.isFile
        (addSfx ".json" (d.dir ++ joinNames [c, r])) = false ∧
      (d.delete fs c r).fs.files.lookup (d.dir ++ joinNames [c, r]) =
        fs.files.lookup (d.dir ++ joinNames [c, r])) := by
  refine ⟨?_, ?_, ?_⟩
  · intro e h
    unfold Driver.delete
    simp [h]
  · intro h
    unfold Driver.delete
    simp only [h]
    refine ⟨rfl, ?_⟩
    intro q hq
    exact ⟨removeAll_isFile_false hq, removeAll_isDirp_false hq⟩
  · intro h
    unfold Driver.delete
    simp only [h]
    refine ⟨rfl, ?_, ?_⟩
    · exact removeAll_isFile_false (List.prefix_refl _)
    · exact removeAll_lookup_outside
        (addSfx_prefix_false ".json" (by decide) _)

/-- witness for C5 (amended): deleting an existing ".json" record at the
concrete store succeeds and removes the record file. -/
theorem delete_resolution_witness :
    (drv0.delete fsJson "c" "r").err = none ∧
    (drv0.delete fsJson "c" "r").fs.isFile
      (addSfx ".json" (drv0.dir ++ joinNames ["c", "r"])) = false :=
  ⟨((delete_resolution_amended drv0 fsJson "c" "r").2.2 (by decide)).1,
   ((delete_resolution_amended drv0 fsJson "c" "r").2.2 (by decide)).2.1⟩

/-- C5 counterexample: db/c/r resolves as a bare regular file; Delete
reports success but the file is still there (RemoveAll ran on the
nonexistent db/c/r.json). -/
theorem delete_bare_file_cex :
    (drv0.delete fsBare "c" "r").err = none ∧
    (drv0.delete fsBare "c" "r").fs.files.lookup ["db", "c", "r"] =
      some "hello" ∧
    (drv0.delete fsBare "c" "r").trace =
      [.statOp ["db", "c", "r"], .removeOp ["db", "c", "r.json"]] := by decide

/- ------------------------------------------------------------------
   ReadAll: error propagation (C6) and completeness (C10)
   ------------------------------------------------------------------ -/

theorem readRecords_error_of_mem {fs : FS} {dir : Path} {n : String} {e : Err} :
    ∀ ns, n ∈ ns → fs.readFile (dir ++ [n]) = .error e →
      ∃ e2 t, readRecords fs dir ns = (.error e2, t) := by
  intro ns
  induction ns with
  | nil => intro h; cases h
  | cons m ms ih =>
    intro hmem herr
    rcases List.mem_cons.mp hmem with rfl | hmem2
    · exact ⟨e, [.readFileOp (dir ++ [n])], by simp [readRecords, herr]⟩
    · cases hrf : fs.readFile (dir ++ [m]) with
      | error e2 =>
        exact ⟨e2, [.readFileOp (dir ++ [m])], by simp [readRecords, hrf]⟩
      | ok b =>
        obtain ⟨e2, t, ht⟩ := ih hmem2 herr
        exact ⟨e2, .readFileOp (dir ++ [m]) :: t, by simp [readRecords, hrf, ht]⟩

theorem readRecords_mem {fs : FS} {dir : Path} {n b : String} :
    ∀ ns rs t, n ∈ ns → fs.readFile (dir ++ [n]) = .ok b →
      readRecords fs dir ns = (.ok rs, t) → b ∈ rs := by
  intro ns
  induction ns with
  | nil => intro rs t h; cases h
  | cons m ms ih =>
    intro rs t hmem hok hres
    simp only [readRecords] at hres
    rcases List.mem_cons.mp hmem with rfl | hmem2
    · rw [hok] at hres
      cases hr2 : readRecords fs dir ms with
      | mk fst snd =>
        rw [hr2] at hres
        cases fst with
        | ok rs2 =>
          simp at hres
          rw [← hres.1]
          exact List.mem_cons_self _ _
        | error e => simp at hres
    · cases hrf : fs.readFile (dir ++ [m]) with
      | error e => rw [hrf] at hres; simp at hres
      | ok b2 =>
        rw [hrf] at hres
        cases hr2 : readRecords fs dir ms with
        | mk fst snd =>
          rw [hr2] at hres
          cases fst with
          | ok rs2 =>
            simp at hres
            rw [← hres.1]
            exact List.mem_cons_of_mem _ (ih rs2 snd hmem2 hok hr2)
          | error e => simp at hres

theorem readAll_dir_ok {d : Driver} {fs : FS} {c : String} {rs : List String}
    {t : List FsOp} (hc : c ≠ "") (fi : FileInfo)
    (hstat : stat fs (d.dir ++ [c]) = .ok fi)
    (hrd : fs.readDir (d.dir ++ [c]) = .ok (fs.childNames (d.dir ++ [c])))
    (hrr : readRecords fs (d.dir ++ [c]) (fs.childNames (d.dir ++ [c])) = (.ok rs, t)) :
    d.readAll fs c =
      ⟨none, rs, .statOp (d.dir ++ [c]) :: .readDirOp (d.dir ++ [c]) :: t⟩ := by
  unfold Driver.readAll
  rw [if_neg hc]
  simp only [joinP_one hc, hstat, hrd, hrr]

theorem readAll_dir_error {d : Driver} {fs : FS} {c : String} {e : Err}
    {t : List FsOp} (hc : c ≠ "") (fi : FileInfo)
    (hstat : stat fs (d.dir ++ [c]) = .ok fi)
    (hrd : fs.readDir (d.dir ++ [c]) = .ok (fs.childNames (d.dir ++ [c])))
    (hrr : readRecords fs (d.dir ++ [c]) (fs.childNames (d.dir ++ [c])) = (.error e, t)) :
    d.readAll fs c =
      ⟨some e, [], .statOp (d.dir ++ [c]) :: .readDirOp (d.dir ++ [c]) :: t⟩ := by
  unfold Driver.readAll
  rw [if_neg hc]
  simp only [joinP_one hc, hstat, hrd, hrr]

/-- C6 (amended): a per-file read failure aborts ReadAll with an error
and no partial record sequence; but a failure of the directory listing
itself is silently discarded (the source throws the ReadDir error away),
so ReadAll then returns success with an empty record sequence. -/
theorem readAll_error_policy_amended (d : Driver) (fs : FS) (c : String)
    (hc : c ≠ "") :
    (∀ n e, fs.isDirp (d.dir ++ [c]) = true →
      (d.dir ++ [c]) ∉ fs.denied →
      n ∈ fs.childNames (d.dir ++ [c]) →
      fs.readFile (d.dir ++ [c] ++ [n]) = .error e →
      (d.readAll fs c).err.isSome = true ∧ (d.readAll fs c).records = []) ∧
    (fs.isFile (d.dir ++ [c]) = false → fs.isDirp (d.dir ++ [c]) = true →
      (d.dir ++ [c]) ∈ fs.denied →
      (d.readAll fs c).err = none ∧ (d.readAll fs c).records = []) := by
  constructor
  · intro n e hdir hden hmem herr
    obtain ⟨fi, hstat⟩ := stat_ok_of_exists (Or.inr hdir)
    have hrd : fs.readDir (d.dir ++ [c]) =
        .ok (fs.childNames (d.dir ++ [c])) := by
      simp [FS.readDir, hden, hdir]
    obtain ⟨e2, t, ht⟩ := readRecords_error_of_mem _ hmem herr
    rw [readAll_dir_error hc fi hstat hrd ht]
    constructor <;> trivial
  · intro hf hdir hden
    have hstat : stat fs (d.dir ++ [c]) = .ok ⟨true⟩ := by
      simp [stat, FS.osStat, hf, hdir]
    have hrd : fs.readDir (d.dir ++ [c]) =
        .error (.permission (d.dir ++ [c])) := by
      simp [FS.readDir, hden]
    unfold Driver.readAll
    rw [if_neg hc]
    simp only [joinP_one hc, hstat, hrd, readRecords]
    constructor <;> trivial

/-- a filesystem whose collection directory db/c exists but is not
listable (permission denied on ReadDir). -/
def fsDenied : FS := ⟨[], [[], ["db"], ["db", "c"]], [["db", "c"]]⟩

/-- a filesystem whose collection directory db/c contains a
subdirectory, so the per-file read of that entry fails. -/
def fsSub : FS := ⟨[], [[], ["db"], ["db", "c"], ["db", "c", "sub"]], []⟩

/-- witness for C6 (amended): a failing per-file read at the concrete
store aborts ReadAll with an error and no records. -/
theorem readAll_error_policy_witness :
    (drv0.readAll fsSub "c").err.isSome = true ∧
    (drv0.readAll fsSub "c").records = [] :=
  (readAll_error_policy_amended drv0 fsSub "c" (by decide)).1 "sub"
    (.eisdir ["db", "c", "sub"]) (by decide) (by decide) (by decide) (by decide)

/-- C6 counterexample: the collection directory exists but its listing
fails; ReadAll silently discards that failure and reports success with
no records, instead of returning the error. -/
theorem readAll_swallows_listing_cex :
    fsDenied.readDir ["db", "c"] = .error (.permission ["db", "c"]) ∧
    (drv0.readAll fsDenied "c").err = none ∧
    (drv0.readAll fsDenied "c").records = [] := by decide

/- ------------------------------------------------------------------
   Lock registry (C7)
   ------------------------------------------------------------------ -/

theorem lookup_none_not_mem {α β : Type} [BEq α] [LawfulBEq α]
    {l : List (α × β)} {a : α} (h : l.lookup a = none) :
    a ∉ l.map Prod.fst := by
  induction l with
  | nil => simp
  | cons e t ih =>
    obtain ⟨k, v⟩ := e
    by_cases hk : a = k
    · subst hk
      simp [List.lookup] at h
    · have hne : (a == k) = false := beq_eq_false_iff_ne.mpr hk
      rw [List.lookup, hne] at h
      simp [hk, ih h]

theorem getOrCreateMutex_idem (d : Driver) (c : String) :
    (d.getOrCreateMutex c).2.getOrCreateMutex c =
      ((d.getOrCreateMutex c).1, (d.getOrCreateMutex c).2) := by
  unfold Driver.getOrCreateMutex
  cases hl : d.mutexes.lookup c with
  | some m => simp [hl]
  | none => simp [hl, List.lookup]

theorem getOrCreateMutex_nodup {d : Driver} {c : String}
    (h : (d.mutexes.map Prod.fst).Nodup) :
    ((d.getOrCreateMutex c).2.mutexes.map Prod.fst).Nodup := by
  unfold Driver.getOrCreateMutex
  cases hl : d.mutexes.lookup c with
  | some m => simpa using h
  | none =>
    simp only [List.map_cons]
    exact List.nodup_cons.mpr ⟨lookup_none_not_mem hl, h⟩

theorem getOrCreateMutex_superset (d : Driver) (c : String) :
    ∀ x ∈ d.mutexes, x ∈ (d.getOrCreateMutex c).2.mutexes := by
  intro x hx
  unfold Driver.getOrCreateMutex
  cases hl : d.mutexes.lookup c with
  | some m => simpa using hx
  | none => simp [hx]

theorem write_drv {V : Type} (d : Driver) (fs : FS) (S : Serializer V)
    (c r : String) (v : V) :
    (d.write fs S c r v).drv = d ∨
    (d.write fs S c r v).drv = (d.getOrCreateMutex c).2 := by
  unfold Driver.write
  by_cases hc : c = ""
  · simp [hc]
  · by_cases hr : r = ""
    · simp [hc, hr]
    · rw [if_neg hc, if_neg hr]
      right
      dsimp only
      repeat (first | rfl | split)

theorem delete_drv (d : Driver) (fs : FS) (c r : String) :
    (d.delete fs c r).drv = (d.getOrCreateMutex c).2 := by
  unfold Driver.delete
  dsimp only
  repeat (first | rfl | split)

/-- C7: acquiring the same collection lock twice returns the identical
lock and leaves the registry unchanged; the registry keeps at most one
entry per collection name (no-duplicate keys is preserved), and entries
are never removed (the old registry embeds in the new one) across the
operations that touch the registry, Write and Delete; Read and ReadAll
never touch it. -/
theorem mutex_registry_invariant {V : Type} (d : Driver) (fs : FS)
    (S : Serializer V) (c c2 r : String) (v : V)
    (hwf : (d.mutexes.map Prod.fst).Nodup) :
    ((d.getOrCreateMutex c).2.getOrCreateMutex c =
      ((d.getOrCreateMutex c).1, (d.getOrCreateMutex c).2)) ∧
    ((d.getOrCreateMutex c).2.mutexes.map Prod.fst).Nodup ∧
    (∀ x ∈ d.mutexes, x ∈ (d.getOrCreateMutex c).2.mutexes) ∧
    (((d.write fs S c2 r v).drv.mutexes.map Prod.fst).Nodup ∧
     ∀ x ∈ d.mutexes, x ∈ (d.write fs S c2 r v).drv.mutexes) ∧
    (((d.delete fs c2 r).drv.mutexes.map Prod.fst).Nodup ∧
     ∀ x ∈ d.mutexes, x ∈ (d.delete fs c2 r).drv.mutexes) := by
  refine ⟨getOrCreateMutex_idem d c, getOrCreateMutex_nodup hwf,
          getOrCreateMutex_superset d c, ?_, ?_⟩
  · rcases write_drv d fs S c2 r v with h | h
    · rw [h]
      exact ⟨hwf, fun x hx => hx⟩
    · rw [h]
      exact ⟨getOrCreateMutex_nodup hwf, getOrCreateMutex_superset d c2⟩
  · rw [delete_drv d fs c2 r]
    exact ⟨getOrCreateMutex_nodup hwf, getOrCreateMutex_superset d c2⟩

/-- witness for C7 at the concrete store. -/
theorem mutex_registry_invariant_witness :
    (drv0.getOrCreateMutex "a").2.getOrCreateMutex "a" =
      ((drv0.getOrCreateMutex "a").1, (drv0.getOrCreateMutex "a").2) ∧
    ((drv0.write fs0 unitSer "a" "r" ()).drv.mutexes.map Prod.fst).Nodup :=
  ⟨(mutex_registry_invariant drv0 fs0 unitSer "a" "a" "r" () (by decide)).1,
   (mutex_registry_invariant drv0 fs0 unitSer "a" "a" "r" () (by decide)).2.2.2.1.1⟩

/- ------------------------------------------------------------------
   Delete with empty names (C9) and ReadAll completeness (C10)
   ------------------------------------------------------------------ -/

/-- C9: Delete with both names empty is not rejected: the target
resolves to the store root directory itself, stat finds the root
directory, and Delete removes the entire store recursively and reports
success. -/
theorem delete_empty_names_removes_root (d : Driver) (fs : FS)
    (hf : fs.isFile d.dir = false) (hd : fs.isDirp d.dir = true) :
    (d.delete fs "" "").err = none ∧
    (d.delete fs "" "").trace = [.statOp d.dir, .removeOp d.dir] ∧
    (∀ q, d.dir <+: q →
      (d.delete fs "" "").fs.isFile q = false ∧
      (d.delete fs "" "").fs.isDirp q = false) := by
  have hj : joinNames ["", ""] = ([] : Path) := rfl
  have hstat : stat fs d.dir = .ok ⟨true⟩ := by
    simp [stat, FS.osStat, hf, hd]
  unfold Driver.delete
  simp only [hj, List.append_nil]
  rw [hstat]
  refine ⟨rfl, rfl, ?_⟩
  intro q hq
  exact ⟨removeAll_isFile_false hq, removeAll_isDirp_false hq⟩

/-- a populated store: the root holds collection u with one record. -/
def fs9 : FS := ⟨[(["db", "u", "a.json"], "A")], [[], ["db"], ["db", "u"]], []⟩

/-- witness for C9: at the concrete store the whole root is removed. -/
theorem delete_empty_names_witness :
    (drv0.delete fs9 "" "").err = none ∧
    (drv0.delete fs9 "" "").fs.isDirp ["db"] = false ∧
    (drv0.delete fs9 "" "").fs.isFile ["db", "u", "a.json"] = false :=
  ⟨(delete_empty_names_removes_root drv0 fs9 (by decide) (by decide)).1,
   ((delete_empty_names_removes_root drv0 fs9 (by decide) (by decide)).2.2
      ["db"] (by decide)).2,
   ((delete_empty_names_removes_root drv0 fs9 (by decide) (by decide)).2.2
      ["db", "u", "a.json"] (by decide)).1⟩

theorem childNames_mem {fs : FS} {p : Path} {n : String} {b : String}
    (h : fs.files.lookup (p ++ [n]) = some b) : n ∈ fs.childNames p := by
  unfold FS.childNames
  rw [List.mem_dedup]
  refine List.mem_filterMap.mpr ⟨p ++ [n], ?_, ?_⟩
  · exact List.mem_append_left _ (lookup_mem_keys h)
  · rw [if_pos ⟨by simp, List.prefix_append p [n]⟩]
    exact List.getLast?_concat _

/-- C10: ReadAll returns the raw contents of every regular file directly
inside the collection directory, with no filtering by name or extension:
whenever ReadAll succeeds, the contents of each file - in particular of
a stale ".json.tmp" temp file - appear in the returned sequence. -/
theorem readAll_includes_every_file (d : Driver) (fs : FS) (c n b : String)
    (hc : c ≠ "")
    (hdir : fs.isDirp (d.dir ++ [c]) = true)
    (hden : (d.dir ++ [c]) ∉ fs.denied)
    (hfile : fs.files.lookup (d.dir ++ [c] ++ [n]) = some b)
    (hok : (d.readAll fs c).err = none) :
    b ∈ (d.readAll fs c).records := by
  obtain ⟨fi, hstat⟩ := stat_ok_of_exists (Or.inr hdir)
  have hrd : fs.readDir (d.dir ++ [c]) = .ok (fs.childNames (d.dir ++ [c])) := by
    simp [FS.readDir, hden, hdir]
  have hmem : n ∈ fs.childNames (d.dir ++ [c]) := childNames_mem hfile
  by_cases hdenf : (d.dir ++ [c] ++ [n]) ∈ fs.denied
  · exfalso
    have hdenf2 : d.dir ++ [c, n] ∈ fs.denied := by simpa using hdenf
    have herr : fs.readFile (d.dir ++ [c] ++ [n]) =
        .error (.permission (d.dir ++ [c] ++ [n])) := by
      simp [FS.readFile, hdenf2]
    obtain ⟨e2, t, ht⟩ := readRecords_error_of_mem _ hmem herr
    rw [readAll_dir_error hc fi hstat hrd ht] at hok
    simp at hok
  · have hdenf2 : d.dir ++ [c, n] ∉ fs.denied := by simpa using hdenf
    have hfile2 : List.lookup (d.dir ++ [c, n]) fs.files = some b := by
      simpa using hfile
    have hrf : fs.readFile (d.dir ++ [c] ++ [n]) = .ok b := by
      simp [FS.readFile, hdenf2, hfile2]
    cases hr2 : readRecords fs (d.dir ++ [c]) (fs.childNames (d.dir ++ [c])) with
    | mk fst snd =>
      cases fst with
      | ok rs =>
        rw [readAll_dir_ok hc fi hstat hrd hr2]
        exact readRecords_mem _ rs snd hmem hrf hr2
      | error e =>
        exfalso
        rw [readAll_dir_error hc fi hstat hrd hr2] at hok
        simp at hok

/-- a collection holding a normal record and a stale temp file. -/
def fsTmp : FS :=
  ⟨[(["db", "c", "a.json"], "A"), (["db", "c", "x.json.tmp"], "T")],
   [[], ["db"], ["db", "c"]], []⟩

/-- witness for C10: the stale temp file content is returned as a
record. -/
theorem readAll_includes_tmp_witness :
    "T" ∈ (drv0.readAll fsTmp "c").records :=
  readAll_includes_every_file drv0 fsTmp "c" "x.json.tmp" "T"
    (by decide) (by decide) (by decide) (by decide) (by decide)

/- ------------------------------------------------------------------
   Concurrency model (C8).  In main.go every mutating operation
   (Write, Delete) performs all of its filesystem accesses between
   mutex.Lock() and the deferred mutex.Unlock() of the lock returned by
   getOrCreateMutex(collection).  A two-thread schedule is an
   interleaving of the two bracketed event sequences that respects
   mutual exclusion per lock name.
   ------------------------------------------------------------------ -/

/-- an event of a two-thread schedule: acquiring or releasing the named
collection lock, or performing one filesystem access; the Bool is the
thread id. -/
inductive Ev where
  | acq (tid : Bool) (c : String)
  | rel (tid : Bool) (c : String)
  | act (tid : Bool) (op : FsOp)
deriving DecidableEq, Repr

/-- a mutating operation as the scheduler sees it: acquire the
collection lock, run the filesystem accesses in order, release the
lock. -/
def thread (tid : Bool) (c : String) (ops : List FsOp) : List Ev :=
  Ev.acq tid c :: (ops.map (Ev.act tid) ++ [Ev.rel tid c])

/-- interleavings of two event sequences: each sequence appears as a
subsequence, in order. -/
inductive Interleave : List Ev → List Ev → List Ev → Prop
  | nil : Interleave [] [] []
  | left {x : Ev} {xs ys zs : List Ev} :
      Interleave xs ys zs → Interleave (x :: xs) ys (x :: zs)
  | right {y : Ev} {xs ys zs : List Ev} :
      Interleave xs ys zs → Interleave xs (y :: ys) (y :: zs)

/-- mutual-exclusion discipline: an acquire may only proceed while no
thread holds the same lock name; a release requires the lock to be
held.  `held` is the list of currently held lock names. -/
def lockOk : List String → List Ev → Bool
  | _, [] => true
  | held, Ev.acq _ c :: rest => !held.contains c && lockOk (c :: held) rest
  | held, Ev.rel _ c :: rest => held.contains c && lockOk (held.erase c) rest
  | held, Ev.act _ _ :: rest => lockOk held rest

theorem interleave_nil_left : ∀ {ys zs : List Ev}, Interleave [] ys zs → zs = ys
  | _, _, .nil => rfl
  | _, _, .right h => congrArg (List.cons _) (interleave_nil_left h)

theorem interleave_nil_right : ∀ {xs zs : List Ev}, Interleave xs [] zs → zs = xs
  | _, _, .nil => rfl
  | _, _, .left h => congrArg (List.cons _) (interleave_nil_right h)

theorem interleave_seq : ∀ (xs ys : List Ev), Interleave xs ys (xs ++ ys)
  | [], [] => .nil
  | [], _ :: ys => .right (interleave_seq [] ys)
  | _ :: xs, ys => .left (interleave_seq xs ys)

/-- running a sequence of act events never changes the lock state. -/
theorem lockOk_acts (t : Bool) :
    ∀ (ops : List FsOp) (held : List String) (rest : List Ev),
      lockOk held (ops.map (Ev.act t) ++ rest) = lockOk held rest := by
  intro ops
  induction ops with
  | nil => intro held rest; rfl
  | cons a as ih =>
    intro held rest
    simp only [List.map_cons, List.cons_append, lockOk]
    exact ih held rest

/-- while a thread holds lock c, the other thread cannot get past its
acquire of c: all remaining events of the holder come first. -/
theorem interleave_locked_run (t u : Bool) (c : String) :
    ∀ (as : List FsOp) (bs zs : List Ev) (held : List String),
      held.contains c = true →
      Interleave (as.map (Ev.act t) ++ [Ev.rel t c]) (Ev.acq u c :: bs) zs →
      lockOk held zs = true →
      zs = as.map (Ev.act t) ++ Ev.rel t c :: Ev.acq u c :: bs := by
  intro as
  induction as with
  | nil =>
    intro bs zs held hheld hint hlk
    simp only [List.map_nil, List.nil_append] at hint ⊢
    cases hint with
    | left h =>
      rw [interleave_nil_left h]
    | right h =>
      exfalso
      simp [lockOk] at hlk
      exact hlk.1 (by simpa using hheld)
  | cons a as ih =>
    intro bs zs held hheld hint hlk
    simp only [List.map_cons, List.cons_append] at hint ⊢
    cases hint with
    | left h =>
      simp only [lockOk] at hlk
      rw [ih bs _ held hheld h hlk]
    | right h =>
      exfalso
      simp [lockOk] at hlk
      exact hlk.1 (by simpa using hheld)

/-- the mirrored form of interleave_locked_run, with the lock holder in
the second component of the interleaving. -/
theorem interleave_locked_run_right (t u : Bool) (c : String) :
    ∀ (as : List FsOp) (bs zs : List Ev) (held : List String),
      held.contains c = true →
      Interleave (Ev.acq u c :: bs) (as.map (Ev.act t) ++ [Ev.rel t c]) zs →
      lockOk held zs = true →
      zs = as.map (Ev.act t) ++ Ev.rel t c :: Ev.acq u c :: bs := by
  intro as
  induction as with
  | nil =>
    intro bs zs held hheld hint hlk
    simp only [List.map_nil, List.nil_append] at hint ⊢
    cases hint with
    | right h =>
      rw [interleave_nil_right h]
    | left h =>
      exfalso
      simp [lockOk] at hlk
      exact hlk.1 (by simpa using hheld)
  | cons a as ih =>
    intro bs zs held hheld hint hlk
    simp only [List.map_cons, List.cons_append] at hint ⊢
    cases hint with
    | right h =>
      simp only [lockOk] at hlk
      rw [ih bs _ held hheld h hlk]
    | left h =>
      exfalso
      simp [lockOk] at hlk
      exact hlk.1 (by simpa using hheld)

/-- any lock-respecting interleaving of two critical sections on the
same lock is one of the two sequential orders. -/
theorem same_lock_serialized (c : String) (opsA opsB : List FsOp) (zs : List Ev)
    (hint : Interleave (thread true c opsA) (thread false c opsB) zs)
    (hlk : lockOk [] zs = true) :
    zs = thread true c opsA ++ thread false c opsB ∨
    zs = thread false c opsB ++ thread true c opsA := by
  unfold thread at hint
  cases hint with
  | left h =>
    left
    simp only [lockOk, List.contains, List.elem, Bool.not_false, Bool.true_and] at hlk
    have hz := interleave_locked_run true false c opsA
      (opsB.map (Ev.act false) ++ [Ev.rel false c]) _ [c]
      (by simp [List.contains, List.elem]) h hlk
    rw [hz]
    simp [thread]
  | right h =>
    right
    simp only [lockOk, List.contains, List.elem, Bool.not_false, Bool.true_and] at hlk
    have hz := interleave_locked_run_right false true c opsB
      (opsA.map (Ev.act true) ++ [Ev.rel true c]) _ [c]
      (by simp [List.contains, List.elem]) h hlk
    rw [hz]
    simp [thread]

/-- C8: (1) any lock-respecting schedule of two mutating operations on
the same collection of the same Store keeps their filesystem effects
unseparated: the schedule is one of the two sequential orders, never an
interleaving - stated generically over the bracketed traces, which
covers Write/Write, Write/Delete and Delete/Delete; (2) the same, with
the traces instantiated to an actual Write and an actual Delete on the
same collection; (3) on two different collections a genuinely parallel
lock-respecting schedule exists, in which the second thread acquires
its lock before the first releases. -/
theorem mutating_ops_serialized :
    (∀ (c : String) (opsA opsB : List FsOp) (zs : List Ev),
      Interleave (thread true c opsA) (thread false c opsB) zs →
      lockOk [] zs = true →
      zs = thread true c opsA ++ thread false c opsB ∨
      zs = thread false c opsB ++ thread true c opsA) ∧
    (∀ (V : Type) (d1 d2 : Driver) (fs1 fs2 : FS) (S : Serializer V)
        (c r1 r2 : String) (v : V) (zs : List Ev),
      Interleave (thread true c ((d1.write fs1 S c r1 v).trace))
        (thread false c ((d2.delete fs2 c r2).trace)) zs →
      lockOk [] zs = true →
      zs = thread true c ((d1.write fs1 S c r1 v).trace) ++
             thread false c ((d2.delete fs2 c r2).trace) ∨
      zs = thread false c ((d2.delete fs2 c r2).trace) ++
             thread true c ((d1.write fs1 S c r1 v).trace)) ∧
    (∀ (c1 c2 : String) (opsA opsB : List FsOp), c1 ≠ c2 →
      ∃ zs, Interleave (thread true c1 opsA) (thread false c2 opsB) zs ∧
        lockOk [] zs = true ∧
        ∃ pre mid post, zs = pre ++ Ev.acq false c2 :: mid ++ Ev.rel true c1 :: post) := by
  refine ⟨fun c opsA opsB zs hint hlk => same_lock_serialized c opsA opsB zs hint hlk,
          fun V d1 d2 fs1 fs2 S c r1 r2 v zs hint hlk =>
            same_lock_serialized c _ _ zs hint hlk, ?_⟩
  intro c1 c2 opsA opsB hne
  refine ⟨Ev.acq true c1 :: Ev.acq false c2 ::
            ((opsA.map (Ev.act true) ++ [Ev.rel true c1]) ++
             (opsB.map (Ev.act false) ++ [Ev.rel false c2])), ?_, ?_, ?_⟩
  · exact .left (.right (interleave_seq _ _))
  · have hb1 : (c1 == c2) = false := beq_eq_false_iff_ne.mpr hne
    have hb2 : (c2 == c1) = false := beq_eq_false_iff_ne.mpr (Ne.symm hne)
    have herase : ([c2, c1].erase c1) = [c2] := by
      simp [List.erase, hb2]
    simp [lockOk, lockOk_acts, List.append_assoc, List.erase, hb1, hb2, herase,
      hne, Ne.symm hne]
  · exact ⟨[Ev.acq true c1], opsA.map (Ev.act true),
      opsB.map (Ev.act false) ++ [Ev.rel false c2], by simp⟩

/-- witness for C8: a concrete lock-respecting schedule of two
operations on the same collection, shown to be sequential by the
theorem. -/
theorem mutating_ops_serialized_witness :
    thread true "k" [] ++ thread false "k" [] =
      thread true "k" [] ++ thread false "k" [] ∨
    thread true "k" [] ++ thread false "k" [] =
      thread false "k" [] ++ thread true "k" [] :=
  mutating_ops_serialized.1 "k" [] []
    (thread true "k" [] ++ thread false "k" []) (interleave_seq _ _) (by decide)

end GoDB
